import Mathlib

/-!
Verification development for the `llm-scan-tool` repository.

The Go sources are shallowly embedded: Go strings become `List Char`
(`Str`), the filesystem becomes an oracle `Str → Option Str` mapping a
path to the file's content (`none` models an unreadable/absent file),
and the concurrent merge phase of `collect.Scan` becomes a fold over the
candidate path list taken in an arbitrary order (worker scheduling is
modelled by quantifying over permutations of that list).

The first part of the file embeds the Go standard-library helpers the
sources rely on (`strings.*`, `path/filepath.*`); the second part embeds
the repository's `internal/files` and `internal/collect` packages; the
last part states and proves the claims.
-/

namespace LlmScan

/-- Go strings, modelled as lists of characters.  Go compares strings
byte-wise; UTF-8 byte order coincides with code-point order, so the
lexicographic order on `List Char` is faithful. -/
abbrev Str := List Char

/-- `unicode.IsSpace` restricted to the ASCII space characters Go's
`strings.TrimSpace`/`strings.Fields` treat as whitespace (the sources
only ever trim ASCII text). -/
def isSpaceGo (c : Char) : Bool :=
  c == ' ' || c == '\t' || c == '\n' || c == '\x0b' || c == '\x0c' || c == '\r'

/-- `strings.TrimSpace`. -/
def trimSpaceGo (s : Str) : Str :=
  ((s.dropWhile isSpaceGo).reverse.dropWhile isSpaceGo).reverse

/-- `strings.HasPrefix s pre`. -/
def goStartsWith : Str → Str → Bool
  | _, [] => true
  | [], _ :: _ => false
  | c :: s, p :: ps => c == p && goStartsWith s ps

/-- `strings.HasSuffix s suf`. -/
def goEndsWith (s suf : Str) : Bool :=
  goStartsWith s.reverse suf.reverse

/-- `strings.TrimPrefix s pre`. -/
def goTrimPref (s pre : Str) : Str :=
  if goStartsWith s pre then s.drop pre.length else s

/-- `strings.TrimSuffix s suf`. -/
def goTrimSuffix (s suf : Str) : Str :=
  if goEndsWith s suf then s.take (s.length - suf.length) else s

/-- `strings.Contains s sub`. -/
def goContains : Str → Str → Bool
  | [], sub => sub.isEmpty
  | c :: t, sub => goStartsWith (c :: t) sub || goContains t sub

/-- `strings.Trim s cutset`: drop leading and trailing characters that
occur in `cutset`. -/
def goTrim (s cutset : Str) : Str :=
  ((s.dropWhile (fun c => cutset.contains c)).reverse.dropWhile
    (fun c => cutset.contains c)).reverse

/-- `strings.Split s sep` for a one-character separator (the sources
split only on `"\n"` and `","`). -/
def splitOnCharGo (sep : Char) : Str → List Str
  | [] => [[]]
  | c :: t =>
    if c == sep then [] :: splitOnCharGo sep t
    else
      match splitOnCharGo sep t with
      | [] => [[c]]
      | h :: r => (c :: h) :: r

/-- Accumulator loop for `strings.Fields`. -/
def fieldsAux : Str → Str → List Str
  | [], acc => if acc.isEmpty then [] else [acc.reverse]
  | c :: t, acc =>
    if isSpaceGo c then
      if acc.isEmpty then fieldsAux t [] else acc.reverse :: fieldsAux t []
    else fieldsAux t (c :: acc)

/-- `strings.Fields`: split around runs of whitespace. -/
def fieldsGo (s : Str) : List Str := fieldsAux s []

/-- `strings.ToLower`, ASCII case mapping (`Char.toLower` lowers exactly
the ASCII uppercase letters; all paths and keywords in the sources are
ASCII). -/
def toLowerGo (s : Str) : Str := s.map Char.toLower

/-- `strings.EqualFold`, ASCII folding. -/
def goEqualFold (a b : Str) : Bool := toLowerGo a == toLowerGo b

/-- `strings.Join parts sep`. -/
def goJoin (parts : List Str) (sep : Str) : Str := List.intercalate sep parts

/-- `strings.SplitN s sep 2` first component, for a one-character
separator: the text before the first occurrence of `sep` (the whole
string when `sep` is absent). -/
def goSplitN2First (s : Str) (sep : Char) : Str :=
  s.takeWhile (fun c => !(c == sep))

/-- `collect.atoiSafe`: parse leading decimal digits, returning the value
accumulated so far at the first non-digit. -/
def atoiSafeAux : Str → Nat → Nat
  | [], n => n
  | c :: t, n =>
    if c < '0' || '9' < c then n
    else atoiSafeAux t (n * 10 + (c.toNat - '0'.toNat))

/-- `collect.atoiSafe` (degrades to the digits read so far, never fails). -/
def atoiSafe (s : Str) : Nat := atoiSafeAux s 0

/-- Reversed-scan worker for `filepath.Ext`. -/
def extFromRev : Str → Str → Str
  | [], _ => []
  | c :: t, acc =>
    if c == '/' then []
    else if c == '.' then '.' :: acc
    else extFromRev t (c :: acc)

/-- `filepath.Ext`: the suffix starting at the final dot in the final
slash-separated element; empty if there is no dot. -/
def filepathExt (s : Str) : Str := extFromRev s.reverse []

/-- `filepath.Base`: the last element of the path, after stripping
trailing slashes; `"."` for the empty path, `"/"` for all-slash paths. -/
def filepathBase (s : Str) : Str :=
  if s.isEmpty then ['.']
  else
    let s1 := (s.reverse.dropWhile (fun c => c == '/')).reverse
    let s2 := (s1.reverse.takeWhile (fun c => !(c == '/'))).reverse
    if s2.isEmpty then ['/'] else s2

/-- `filepath.Join root p` as the sources use it: `root` is the cleaned
absolute scan root and `p` a cleaned slash-relative path produced by the
walk, so the join is plain concatenation with one separator. -/
def joinPath (root p : Str) : Str := root ++ '/' :: p

/-! ### `path/filepath.Match`

A faithful port of Go's glob matcher (`match.go`): a pattern is a
sequence of chunks separated by `*`; `?` matches one non-separator
character, `[...]` a character range, `\\` escapes.  `GOOS` is not
windows, so `\\` is an escape character.  Errors (`ErrBadPattern`) are
represented explicitly because `Match` aborts on them; every call site
in the sources discards the error, so the wrapper folds it to `false`. -/

/-- Outcome of `matchChunk`: matched with a remainder of the name,
failed, or `ErrBadPattern`. -/
inductive ChunkRes where
  | ok (rest : LlmScan.Str)
  | fail
  | err
deriving DecidableEq

/-- `getEsc`: read one (possibly escaped) character of a range inside
`[...]`; `none` models `ErrBadPattern`. -/
def getEsc : Str → Option (Char × Str)
  | [] => none
  | '-' :: _ => none
  | ']' :: _ => none
  | '\\' :: t =>
    match t with
    | [] => none
    | r :: rest => if rest.isEmpty then none else some (r, rest)
  | c :: t => if t.isEmpty then none else some (c, t)

/-- The range loop of `matchChunk`'s `[` case: scan `lo`-`hi` ranges
until the closing `]` (which only closes once at least one range was
read), accumulating whether `r` fell in some range. -/
def scanRanges : Nat → Str → Char → Bool → Bool → Option (Bool × Str)
  | 0, _, _, _, _ => none
  | fuel + 1, chunk, r, matched, started =>
    if started && (chunk.head? == some ']') then some (matched, chunk.tail)
    else
      match getEsc chunk with
      | none => none
      | some (lo, rest1) =>
        match rest1 with
        | '-' :: rest2 =>
          match getEsc rest2 with
          | none => none
          | some (hi, rest3) =>
            scanRanges fuel rest3 r
              (matched || (decide (lo ≤ r) && decide (r ≤ hi))) true
        | _ =>
          scanRanges fuel rest1 r
            (matched || (decide (lo ≤ r) && decide (r ≤ lo))) true

/-- `matchChunk chunk s`: match the wildcard-free chunk at the start of
`s`, carrying Go's `failed` flag (a failed chunk is still scanned to the
end so that `ErrBadPattern` takes precedence over a mere mismatch). -/
def matchChunkAux : Nat → Bool → Str → Str → ChunkRes
  | 0, _, _, _ => .err
  | fuel + 1, failed0, chunk, s =>
    match chunk with
    | [] => if failed0 then .fail else .ok s
    | c :: rest =>
      let failed := failed0 || s.isEmpty
      if c == '[' then
        let r := if failed then Char.ofNat 0 else s.headD (Char.ofNat 0)
        let s1 := if failed then s else s.tail
        let negated := rest.head? == some '^'
        let ch1 := if negated then rest.tail else rest
        match scanRanges (fuel + 1) ch1 r false false with
        | none => .err
        | some (matched, ch2) =>
          matchChunkAux fuel (failed || (matched == negated)) ch2 s1
      else if c == '?' then
        let failed2 := failed || (s.headD (Char.ofNat 0) == '/')
        let s1 := if failed then s else s.tail
        matchChunkAux fuel failed2 rest s1
      else if c == '\\' then
        match rest with
        | [] => .err
        | c2 :: rest2 =>
          let failed2 := failed || !(s.headD (Char.ofNat 0) == c2)
          let s1 := if failed then s else s.tail
          matchChunkAux fuel failed2 rest2 s1
      else
        let failed2 := failed || !(s.headD (Char.ofNat 0) == c)
        let s1 := if failed then s else s.tail
        matchChunkAux fuel failed2 rest s1

/-- The chunk scanner of `scanChunk`: split the pattern at the next
unescaped `*` that is not inside a `[...]` range. -/
def chunkSplit : Bool → Str → Str × Str
  | _, [] => ([], [])
  | inrange, c :: t =>
    if c == '\\' then
      match t with
      | [] => (['\\'], [])
      | c2 :: t2 =>
        let (ch, rest) := chunkSplit inrange t2
        (c :: c2 :: ch, rest)
    else if c == '[' then
      let (ch, rest) := chunkSplit true t
      (c :: ch, rest)
    else if c == ']' then
      let (ch, rest) := chunkSplit false t
      (c :: ch, rest)
    else if c == '*' && !inrange then ([], c :: t)
    else
      let (ch, rest) := chunkSplit inrange t
      (c :: ch, rest)

/-- `scanChunk`: strip leading `*`s and return (saw a star, next chunk,
remaining pattern). -/
def scanChunk (p : Str) : Bool × Str × Str :=
  let star := p.head? == some '*'
  let p1 := p.dropWhile (fun c => c == '*')
  let (chunk, rest) := chunkSplit false p1
  (star, chunk, rest)

/-- The `star` retry loop of `Match`: try `matchChunk` at each later
position of the name, not crossing a `/`.  `commit t` resumes the outer
loop with remainder `t`; `abort` is `ErrBadPattern`. -/
inductive StarRes where
  | commit (t : LlmScan.Str)
  | abort
  | exhausted

/-- Search loop used when a chunk preceded by `*` did not match in
place. -/
def starSearch (chunk : Str) (restEmpty : Bool) : Str → StarRes
  | [] => .exhausted
  | c :: t =>
    if c == '/' then .exhausted
    else
      match matchChunkAux (chunk.length + 1) false chunk t with
      | .err => .abort
      | .ok tt =>
        if restEmpty && !tt.isEmpty then starSearch chunk restEmpty t
        else .commit tt
      | .fail => starSearch chunk restEmpty t

/-- The main loop of `filepath.Match`.  The fuel strictly exceeds the
pattern length; every recursive call continues with the strictly shorter
remaining pattern, so the `0` case is unreachable from `filepathMatch`. -/
def goMatchAux : Nat → Str → Str → Bool
  | 0, _, _ => false
  | fuel + 1, pattern, name =>
    if pattern.isEmpty then name.isEmpty
    else
      let (star, chunk, rest) := scanChunk pattern
      if star && chunk.isEmpty then !(name.contains '/')
      else
        match matchChunkAux (chunk.length + 1) false chunk name with
        | .ok t =>
          if t.isEmpty || !rest.isEmpty then goMatchAux fuel rest t
          else if star then
            match starSearch chunk rest.isEmpty name with
            | .commit tt => goMatchAux fuel rest tt
            | .abort => false
            | .exhausted => false
          else false
        | .err => false
        | .fail =>
          if star then
            match starSearch chunk rest.isEmpty name with
            | .commit tt => goMatchAux fuel rest tt
            | .abort => false
            | .exhausted => false
          else false

/-- `ok, _ := filepath.Match(pattern, name)` as the sources call it: the
`ErrBadPattern` error is discarded and yields `false`. -/
def filepathMatch (pattern name : Str) : Bool :=
  goMatchAux (pattern.length + 1) pattern name

/-! ### The `internal/files` package

The repository carries two near-duplicate `files` packages (the spec's
"superseded variant" note): a polished one whose `ReadHead` guards
`maxBytes <= 0` explicitly and whose `MatchAny` tests only the full
path, and an older one whose `ReadHead` relies on the loop guard and
whose `MatchAny` also tests the path's base name.  Both are embedded.
A file is an `Option Str`: `none` models a path `os.Open` fails on. -/

/-- `files.DefaultIgnore`: the static default exclusion globs. -/
def DefaultIgnore : List Str :=
  [".git/", ".git/**",
   ".hg/", ".svn/",
   "node_modules/**", "dist/**", "build/**", "out/**", "bin/**", "obj/**",
   ".venv/**", "venv/**", "__pycache__/**",
   ".idea/**", ".vscode/**", ".DS_Store",
   ".terraform/**", "vendor/**",
   "*.png", "*.jpg", "*.jpeg", "*.gif", "*.webp", "*.ico",
   "*.pdf", "*.ppt", "*.pptx", "*.doc", "*.docx", "*.xls", "*.xlsx",
   "*.zip", "*.tar", "*.gz", "*.tgz", "*.7z",
   "*.mp4", "*.mp3", "*.mov", "*.avi"].map String.toList

/-- The chunked `io.ReadFull` loop of the polished `files.ReadHead`
(32 KiB chunks).  `ReadFull` returns exactly `toRead` bytes unless the
stream ends first, in which case the partial chunk is retained and the
loop breaks.  The fuel strictly exceeds the byte budget, which shrinks
by at least one per iteration, so the `0` case is unreachable. -/
def readHeadLoop : Nat → Nat → Nat → Str → Str
  | 0, _, _, _ => []
  | fuel + 1, chunkSize, budget, data =>
    if budget == 0 then []
    else
      let toRead := min chunkSize budget
      let got := data.take toRead
      if got.length < toRead then got
      else got ++ readHeadLoop fuel chunkSize (budget - toRead) (data.drop toRead)

/-- The polished `files.ReadHead` (the variant with the explicit
`maxBytes <= 0` guard): read at most `maxBytes` bytes from the start of
the file.  An unopenable file is an error; truncation is not. -/
def ReadHead (file : Option Str) (maxBytes : Int) : Except Unit Str :=
  match file with
  | none => .error ()
  | some data =>
    if maxBytes ≤ 0 then .ok []
    else .ok (readHeadLoop (maxBytes.toNat + 1) 32768 maxBytes.toNat data)

/-- The read loop of the older `files.ReadHead` variant (4 KiB chunks,
`n >= max` checked at the top of the loop, `bufio.Reader.Read` modelled
as returning the full requested chunk unless the stream is exhausted). -/
def readHeadLoop2 : Nat → Int → Int → Str → Str
  | 0, _, _, _ => []
  | fuel + 1, max, n, data =>
    if max ≤ n then []
    else
      match data with
      | [] => []
      | _ :: _ =>
        let chunk := min 4096 (max - n)
        let got := data.take chunk.toNat
        got ++ readHeadLoop2 fuel max (n + got.length) (data.drop chunk.toNat)

/-- The older `files.ReadHead` variant (no explicit non-positive guard:
the loop's `n >= max` test exits immediately). -/
def ReadHead2 (file : Option Str) (max : Int) : Except Unit Str :=
  match file with
  | none => .error ()
  | some data => .ok (readHeadLoop2 (max.toNat + 1) max 0 data)

/-- `files.MatchAny` as in the polished `files` variant: true when some
glob matches the full (relative) path.  The empty-pattern-list early
return is `List.any`'s behaviour on `[]`. -/
def MatchAny (globs : List Str) (path : Str) : Bool :=
  globs.any (fun g => filepathMatch g path)

/-- `files.MatchAny` as in the older (superseded) `files` variant: true
when some glob matches the full path or the path's base name. -/
def MatchAnyBase (globs : List Str) (path : Str) : Bool :=
  globs.any (fun g => filepathMatch g path || filepathMatch g (filepathBase path))

/-- `files.GitIgnoreMatcher`: the compiled ignore files.  Each
`*ignore.GitIgnore` of the external `go-gitignore` library is abstracted
as a predicate on relative paths (the library is not part of this
repository); `Match` is the disjunction over them exactly as in
`gitignore.go`. -/
structure GitIgnoreMatcher where
  ignores : List (Str → Bool)

/-- `GitIgnoreMatcher.Match`: true if some compiled ignore file matches
the path. -/
def GitIgnoreMatcher.Match (g : GitIgnoreMatcher) (path : Str) : Bool :=
  g.ignores.any (fun ig => ig path)

/-! ### The `internal/collect` package: data model

The complete orchestrator variant (the one with gitignore support and
test-coverage/BDD aggregation) is embedded; the spec designates it as
canonical.  `time.Time` (`GeneratedAt`) and the rendered `Tree`/
`NotableConfigs` fields are outside every claim and are omitted from the
record; Go maps become association lists. -/

/-- `collect.Config` (the CSV glob fields are consumed before the scan
and appear here already parsed, as the walk model takes the glob lists
directly). -/
structure Config where
  root : Str
  maxFileBytes : Int

/-- `collect.GoModule`. -/
structure GoModule where
  path : Str
  module : Str
  requires : List Str
deriving DecidableEq

/-- `collect.ProtoInfo`. -/
structure ProtoInfo where
  file : Str
  package : Str
  services : List Str
  rpcs : List Str
deriving DecidableEq

/-- `collect.Decision`. -/
structure Decision where
  file : Str
  title : Str
  summary : Str
deriving DecidableEq

/-- `collect.ReadmeSummary`. -/
structure ReadmeSummary where
  file : Str
  title : Str
  firstPara : Str
  objective : Str
deriving DecidableEq

/-- `collect.BDDSum`. -/
structure BDDSum where
  featureFiles : Nat
  reports : List Str
  features : Nat
  scenarios : Nat
  steps : Nat
deriving DecidableEq

/-- `collect.CoverageSummary`; `Percent` is the exact rational value of
the Go `float64` computation (the claims only evaluate it on values
that are exactly representable). -/
structure CoverageSummary where
  sources : List Str
  totalStmts : Nat
  coveredStmts : Nat
  percent : ℚ
  hasGoProfile : Bool
  bdd : BDDSum
deriving DecidableEq

/-- The zero `CoverageSummary` allocated by `&CoverageSummary{}`. -/
def emptyCoverage : CoverageSummary :=
  ⟨[], 0, 0, 0, false, ⟨0, [], 0, 0, 0⟩⟩

/-- `collect.Summary` (walk-root, categorical collections, readme-summary
map, extension histogram, optional coverage). -/
structure Summary where
  root : Str
  goModules : List GoModule
  proto : List ProtoInfo
  makeTargets : List Str
  dockerfiles : List Str
  sqlMigrations : List Str
  decisions : List Decision
  envExamples : List Str
  licenses : List Str
  readmes : List Str
  readmeSummaries : List (Str × ReadmeSummary)
  techStats : List (Str × Nat)
  testCoverage : Option CoverageSummary
deriving DecidableEq

/-- The empty `Summary` created at scan start. -/
def emptySummary (root : Str) : Summary :=
  ⟨root, [], [], [], [], [], [], [], [], [], [], [], none⟩

/-- Go map assignment `m[k] = v` on an association list: overwrite the
existing binding or append a new one. -/
def mapSet {α : Type} (m : List (Str × α)) (k : Str) (v : α) : List (Str × α) :=
  match m with
  | [] => [(k, v)]
  | (k0, v0) :: t => if k0 == k then (k, v) :: t else (k0, v0) :: mapSet t k v

/-- `sum.TechStats[ext]++` on an association list. -/
def techBump (m : List (Str × Nat)) (k : Str) : List (Str × Nat) :=
  match m with
  | [] => [(k, 1)]
  | (k0, n) :: t => if k0 == k then (k0, n + 1) :: t else (k0, n) :: techBump t k

/-! ### The `internal/collect` extractors -/

/-- The inner loop of `parseGoMod`'s `require` branch: split the
remainder on newlines (a no-op, since the file was already split into
lines), skip blanks and `//` comments, and keep the first field. -/
def goModRequiresOfRest (rest : Str) : List Str :=
  (splitOnCharGo '\n' rest).foldl
    (fun acc r =>
      let r := trimSpaceGo r
      if r.isEmpty || goStartsWith r "//".toList then acc
      else
        match fieldsGo r with
        | [] => acc
        | w :: _ => acc ++ [w])
    []

/-- One line of `parseGoMod`'s loop (both `module` and `require` prefix
tests run on every line). -/
def parseGoModLine (gm : GoModule) (ln : Str) : GoModule :=
  let ln := trimSpaceGo ln
  let gm :=
    if goStartsWith ln "module ".toList then
      { gm with module := trimSpaceGo (goTrimPref ln "module".toList) }
    else gm
  if goStartsWith ln "require ".toList then
    let rest := goTrim (trimSpaceGo (goTrimPref ln "require".toList)) "()".toList
    { gm with requires := gm.requires ++ goModRequiresOfRest rest }
  else gm

/-- `collect.parseGoMod`: read the whole file (`os.ReadFile`), split it
into lines and fold `parseGoModLine`; `path` is stored as received. -/
def parseGoMod (fs : Str → Option Str) (path : Str) : Option GoModule :=
  match fs path with
  | none => none
  | some data =>
    some ((splitOnCharGo '\n' data).foldl parseGoModLine ⟨path, [], []⟩)

/-- One line of `parseProto`'s loop. -/
def parseProtoLine (pi : ProtoInfo) (ln : Str) : ProtoInfo :=
  let ln := trimSpaceGo ln
  let pi :=
    if goStartsWith ln "package ".toList then
      { pi with package :=
          goTrimSuffix (trimSpaceGo (goTrimPref ln "package".toList)) ";".toList }
    else pi
  let pi :=
    if goStartsWith ln "service ".toList then
      { pi with services := pi.services ++
          [trimSpaceGo (goSplitN2First (trimSpaceGo (goTrimPref ln "service".toList)) '{')] }
    else pi
  if goStartsWith ln "rpc ".toList then
    { pi with rpcs := pi.rpcs ++
        [trimSpaceGo (goSplitN2First (trimSpaceGo (goTrimPref ln "rpc".toList)) '(')] }
  else pi

/-- `collect.parseProto`: head-read the file and fold `parseProtoLine`. -/
def parseProto (fs : Str → Option Str) (path : Str) (maxBytes : Int) :
    Option ProtoInfo :=
  match ReadHead (fs path) maxBytes with
  | .error _ => none
  | .ok head =>
    some ((splitOnCharGo '\n' head).foldl parseProtoLine ⟨path, [], [], []⟩)

/-- `collect.parseMakeTargets`: a non-comment line with no `=`, no
space, ending in `:` is a target (colon stripped). -/
def parseMakeTargets (fs : Str → Option Str) (path : Str) (maxBytes : Int) :
    Option (List Str) :=
  match ReadHead (fs path) maxBytes with
  | .error _ => none
  | .ok head =>
    some ((splitOnCharGo '\n' head).foldl
      (fun targets ln =>
        let ln := trimSpaceGo ln
        if ln.isEmpty || goStartsWith ln "#".toList then targets
        else if !goContains ln "=".toList && goEndsWith ln ":".toList
            && !goContains ln " ".toList then
          let t := goTrimSuffix ln ":".toList
          if t.isEmpty then targets else targets ++ [t]
        else targets)
      [])

/-- The title/summary loop of `parseDecision`, with Go's `continue` on
the title line and the `break` once both fields are set. -/
def parseDecisionLoop : List Str → Str → Str → Str × Str
  | [], title, summary => (title, summary)
  | ln :: rest, title, summary =>
    let trim := trimSpaceGo ln
    if goStartsWith trim "# ".toList && title.isEmpty then
      parseDecisionLoop rest (goTrimPref trim "# ".toList) summary
    else
      let summary :=
        if summary.isEmpty && !trim.isEmpty && !goStartsWith trim "#".toList then trim
        else summary
      if !title.isEmpty && !summary.isEmpty then (title, summary)
      else parseDecisionLoop rest title summary

/-- `collect.parseDecision`. -/
def parseDecision (fs : Str → Option Str) (path : Str) (maxBytes : Int) :
    Option Decision :=
  match ReadHead (fs path) maxBytes with
  | .error _ => none
  | .ok head =>
    let ts := parseDecisionLoop (splitOnCharGo '\n' head) [] []
    some ⟨path, ts.1, ts.2⟩

/-- Title pass of `parseReadmeSummary`: first `"# "` heading, stripped. -/
def readmeTitle : List Str → Str
  | [] => []
  | ln :: rest =>
    let trim := trimSpaceGo ln
    if goStartsWith trim "# ".toList then trimSpaceGo (goTrimPref trim "# ".toList)
    else readmeTitle rest

/-- First-paragraph pass of `parseReadmeSummary`: first non-empty line
that is not a heading, list item, blockquote or code fence. -/
def readmeFirstPara : List Str → Str
  | [] => []
  | ln :: rest =>
    let trim := trimSpaceGo ln
    if trim.isEmpty || goStartsWith trim "#".toList then readmeFirstPara rest
    else if goStartsWith trim "- ".toList || goStartsWith trim "* ".toList
        || goStartsWith trim ">".toList || goStartsWith trim "`".toList then
      readmeFirstPara rest
    else trim

/-- Body collector of `findSection`: up to 3 non-empty, non-heading
lines after the section heading, bullets stripped. -/
def collectBody : List Str → Nat → List Str
  | [], _ => []
  | _ :: _, 0 => []
  | ln :: rest, k + 1 =>
    let t := trimSpaceGo ln
    if t.isEmpty || goStartsWith t "#".toList then collectBody rest (k + 1)
    else if goStartsWith t "- ".toList || goStartsWith t "* ".toList then
      goTrimPref (goTrimPref t "- ".toList) "* ".toList :: collectBody rest k
    else t :: collectBody rest k

/-- `findSection` of `parseReadmeSummary`: find the first `##`-level
heading whose stripped name case-folds to one of `names` and join up to
3 content lines below it. -/
def findSection (names : List Str) : List Str → Str
  | [] => []
  | ln :: rest =>
    let trim := trimSpaceGo ln
    if goStartsWith trim "##".toList then
      let name := trimSpaceGo (trimSpaceGo (trim.dropWhile (fun c => c == '#')))
      if names.any (fun n => goEqualFold name n) then goJoin (collectBody rest 3) " ".toList
      else findSection names rest
    else findSection names rest

/-- UTF-8 byte length of a string (Go `len`). -/
def utf8Len (s : Str) : Nat := (s.map Char.utf8Size).sum

/-- Byte-slice `s[:n]` at rune granularity (exact for the ASCII text the
claims touch; Go would cut mid-rune). -/
def byteTake : Nat → Str → Str
  | _, [] => []
  | n, c :: t => if c.utf8Size ≤ n then c :: byteTake (n - c.utf8Size) t else []

/-- The `limit` closure of `parseReadmeSummary`: newlines collapsed to
spaces, trimmed, truncated at `n` bytes with an ellipsis. -/
def goLimit (s : Str) (n : Nat) : Str :=
  let s := s.map (fun c => if c == '\r' then ' ' else c)
  let s := s.map (fun c => if c == '\n' then ' ' else c)
  let s := trimSpaceGo s
  if n < utf8Len s then byteTake n s ++ ['…'] else s

/-- `collect.parseReadmeSummary`. -/
def parseReadmeSummary (fs : Str → Option Str) (path : Str) (maxBytes : Int) :
    Option ReadmeSummary :=
  match ReadHead (fs path) maxBytes with
  | .error _ => none
  | .ok head =>
    let lines := splitOnCharGo '\n' head
    let title := readmeTitle lines
    let firstPara := readmeFirstPara lines
    let objective :=
      findSection ["Objetivo".toList, "Objective".toList, "Goals".toList] lines
    some ⟨path, goLimit title 120, goLimit firstPara 400, goLimit objective 400⟩

/-- One line of `parseGoCoverProfile`: skip blanks and the `mode:`
header; otherwise `<file:span> <numStatements> <count>` adds
`numStatements` to the total, and to the covered count when `count > 0`.
Lines with fewer than 3 fields are skipped. -/
def coverProfileLine (tc : Nat × Nat) (ln : Str) : Nat × Nat :=
  let ln := trimSpaceGo ln
  if ln.isEmpty || goStartsWith ln "mode:".toList then tc
  else
    match fieldsGo ln with
    | _ :: p1 :: p2 :: _ =>
      let numStmts := atoiSafe p1
      let count := atoiSafe p2
      (tc.1 + numStmts, if 0 < count then tc.2 + numStmts else tc.2)
    | _ => tc

/-- `collect.parseGoCoverProfile`: (total, covered) statement counts;
an unreadable file contributes `(0, 0)`. -/
def parseGoCoverProfile (fs : Str → Option Str) (path : Str) : Nat × Nat :=
  match fs path with
  | none => (0, 0)
  | some data => (splitOnCharGo '\n' data).foldl coverProfileLine (0, 0)

/-! ### The scan orchestrator

Phase 2 of `collect.Scan` dispatches every candidate path through one
`switch` (at most one case fires, in the fixed priority order) and then
unconditionally bumps the extension histogram.  The switch is embedded
as a classifier returning the selected case, and `processFile` performs
that case's merge; this is the same dispatch, written as data. -/

/-- The cases of the classification `switch` in `collect.Scan`. -/
inductive FileKind where
  | gomod | proto | makefile | dockerfile | sql | decision | env
  | license | readme | feature | coverSrc | bddJson | bddXml | other
deriving DecidableEq

/-- The `switch` conditions of `collect.Scan`, in source order, on the
lower-cased relative path. -/
def classify (p : Str) : FileKind :=
  let lower := toLowerGo p
  if goEndsWith lower "go.mod".toList then .gomod
  else if goEndsWith lower ".proto".toList then .proto
  else if filepathBase lower == "makefile".toList || goEndsWith lower ".mk".toList then
    .makefile
  else if goEndsWith lower "dockerfile".toList
      || goStartsWith (filepathBase lower) "dockerfile.".toList then .dockerfile
  else if goEndsWith lower ".sql".toList then .sql
  else if goEndsWith lower ".md".toList
      && (goContains lower "/docs/decisions/".toList
          || goContains lower "/adr".toList) then .decision
  else if goEndsWith lower ".env".toList || goEndsWith lower ".env.example".toList
      || goEndsWith lower ".sample".toList then .env
  else if goContains lower "license".toList then .license
  else if filepathBase lower == "readme.md".toList then .readme
  else if goEndsWith lower ".feature".toList then .feature
  else if filepathBase lower == "coverage.out".toList
      || goEndsWith lower ".coverprofile".toList
      || goEndsWith lower "coverage.txt".toList then .coverSrc
  else if goEndsWith lower ".json".toList
      && (goContains lower "cucumber".toList || goContains lower "godog".toList) then
    .bddJson
  else if goEndsWith lower ".xml".toList
      && (goContains lower "junit".toList || goContains lower "cucumber".toList) then
    .bddXml
  else .other

/-- The unconditional `tech stats` step of the worker: the extension of
the lower-cased path, with the synthetic `.dockerfile` pseudo-extension
for extensionless names containing `dockerfile`. -/
def statExt (p : Str) : Str :=
  let lower := toLowerGo p
  let ext := filepathExt lower
  if ext.isEmpty && goContains lower "dockerfile".toList then ".dockerfile".toList
  else ext

/-- The worker body of `collect.Scan` for one candidate relative path
`p`: the classification `switch`'s merge into the shared summary,
followed by the unconditional extension-histogram bump. -/
def processFile (cfg : Config) (fs : Str → Option Str) (sum : Summary) (p : Str) :
    Summary :=
  let full := joinPath cfg.root p
  let lower := toLowerGo p
  let sum :=
    match classify p with
    | .gomod =>
      match parseGoMod fs full with
      | some gm => { sum with goModules := sum.goModules ++ [gm] }
      | none => sum
    | .proto =>
      match parseProto fs full cfg.maxFileBytes with
      | some pi => { sum with proto := sum.proto ++ [pi] }
      | none => sum
    | .makefile =>
      match parseMakeTargets fs full cfg.maxFileBytes with
      | some ts => { sum with makeTargets := sum.makeTargets ++ ts }
      | none => sum
    | .dockerfile => { sum with dockerfiles := sum.dockerfiles ++ [p] }
    | .sql =>
      if goContains lower "migrat".toList || goContains lower "schema".toList then
        { sum with sqlMigrations := sum.sqlMigrations ++ [p] }
      else sum
    | .decision =>
      match parseDecision fs full cfg.maxFileBytes with
      | some d => { sum with decisions := sum.decisions ++ [d] }
      | none => sum
    | .env => { sum with envExamples := sum.envExamples ++ [p] }
    | .license => { sum with licenses := sum.licenses ++ [p] }
    | .readme =>
      match parseReadmeSummary fs full cfg.maxFileBytes with
      | some rs =>
        { sum with readmes := sum.readmes ++ [p],
                   readmeSummaries := mapSet sum.readmeSummaries p rs }
      | none => { sum with readmes := sum.readmes ++ [p] }
    | .feature =>
      let c := sum.testCoverage.getD emptyCoverage
      let c2 := { c with bdd := { c.bdd with featureFiles := c.bdd.featureFiles + 1 } }
      { sum with testCoverage := some c2 }
    | .coverSrc =>
      let c := sum.testCoverage.getD emptyCoverage
      let c2 := { c with sources := c.sources ++ [p] }
      { sum with testCoverage := some c2 }
    | .bddJson =>
      let c := sum.testCoverage.getD emptyCoverage
      let c2 := { c with bdd := { c.bdd with reports := c.bdd.reports ++ [p] } }
      { sum with testCoverage := some c2 }
    | .bddXml =>
      let c := sum.testCoverage.getD emptyCoverage
      let c2 := { c with bdd := { c.bdd with reports := c.bdd.reports ++ [p] } }
      { sum with testCoverage := some c2 }
    | .other => sum
  { sum with techStats := techBump sum.techStats (statExt p) }

/-- The post-merge coverage consolidation of `collect.Scan` (lines after
`wg.Wait()`): sum the Go cover profiles, setting the percentage and the
`HasGoProfile` flag only when the summed total is positive, then
aggregate BDD reports.  `cuke` abstracts `parseCucumberJSON` (a JSON
deserializer over an external format), mapping a report's full path to
its (features, scenarios, steps) counts. -/
def consolidateCoverage (cfg : Config) (fs : Str → Option Str)
    (cuke : Str → Nat × Nat × Nat) (sum : Summary) : Summary :=
  match sum.testCoverage with
  | none => sum
  | some tc =>
    let goSources :=
      (tc.sources.filter (fun s =>
        let low := toLowerGo s
        goEndsWith low "coverage.out".toList || goEndsWith low ".coverprofile".toList
          || goEndsWith low "coverage.txt".toList)).map (fun s => joinPath cfg.root s)
    let tc :=
      if goSources.isEmpty then tc
      else
        let totCov := goSources.foldl
          (fun acc path =>
            let tcv := parseGoCoverProfile fs path
            (acc.1 + tcv.1, acc.2 + tcv.2))
          (0, 0)
        if 0 < totCov.1 then
          { tc with hasGoProfile := true, totalStmts := totCov.1,
                    coveredStmts := totCov.2,
                    percent := (totCov.2 : ℚ) * 100 / (totCov.1 : ℚ) }
        else tc
    let tc :=
      if tc.bdd.reports.isEmpty then tc
      else
        let sums := tc.bdd.reports.foldl
          (fun acc rel =>
            let c := cuke (joinPath cfg.root rel)
            (acc.1 + c.1, acc.2.1 + c.2.1, acc.2.2 + c.2.2))
          (0, 0, 0)
        if 0 < sums.1 + sums.2.1 + sums.2.2 then
          { tc with bdd := { tc.bdd with features := sums.1, scenarios := sums.2.1,
                                         steps := sums.2.2 } }
        else tc
    { sum with testCoverage := some tc }

/-- `sort.Strings`, modelled extensionally: `sort.Strings` sorts the
string slice in increasing order and equal strings are
indistinguishable, so any correct sort gives the same list. -/
def sortStrs (l : List Str) : List Str :=
  l.insertionSort (fun a b => a ≤ b)

/-- The `sort.Slice` on `GoModules` ordered by `Path` (the comparison
closure of the source); distinct keys make the result independent of the
sorting algorithm. -/
def sortGoModules (l : List GoModule) : List GoModule :=
  l.insertionSort (fun a b => a.path ≤ b.path)

/-- The single-threaded phase of `collect.Scan` after the workers
finish: consolidate coverage, then sort exactly the seven collections
the source sorts (Proto and Decisions are not among them).  Building
the rendered `Tree` is omitted (no claim touches it). -/
def finalizeSummary (cfg : Config) (fs : Str → Option Str)
    (cuke : Str → Nat × Nat × Nat) (sum : Summary) : Summary :=
  let sum := consolidateCoverage cfg fs cuke sum
  { sum with
      goModules := sortGoModules sum.goModules,
      makeTargets := sortStrs sum.makeTargets,
      dockerfiles := sortStrs sum.dockerfiles,
      sqlMigrations := sortStrs sum.sqlMigrations,
      envExamples := sortStrs sum.envExamples,
      licenses := sortStrs sum.licenses,
      readmes := sortStrs sum.readmes }

/-- Phases 2 and 3 of `collect.Scan` on an already-computed candidate
list: merge every candidate's worker result into the summary, then
finalize.  `order` is the candidate list in the order the workers'
merge sections acquired the lock; scheduling nondeterminism is the
choice of a permutation of the walk's candidate list. -/
def runScan (cfg : Config) (fs : Str → Option Str)
    (cuke : Str → Nat × Nat × Nat) (order : List Str) : Summary :=
  finalizeSummary cfg fs cuke (order.foldl (processFile cfg fs) (emptySummary cfg.root))

/-! ### The walk phase

Phase 1 of `collect.Scan`: `filepath.WalkDir` over the root, skipping a
gitignore-matched entry first (`fs.SkipDir` for a directory prunes its
whole subtree), then pruning directories matched by the combined exclude
globs (tested with a trailing slash), and finally keeping a file unless
it matches the exclude globs without matching an include glob.  The
directory tree is explicit data; relative paths use `/`. -/

/-- A directory entry: a file, or a directory with its entries. -/
inductive FSEntry where
  | file (name : Str)
  | dir (name : Str) (children : List FSEntry)

/-- The relative path of an entry named `name` inside the directory with
relative path `parent` (`""` denotes the root). -/
def relJoin (parent name : Str) : Str :=
  if parent.isEmpty then name else parent ++ '/' :: name

/-- The candidate relative file paths collected by the walk callback of
`collect.Scan`, in traversal order.  `gi` is the gitignore matcher's
`Match` predicate. -/
def walkList (gi : Str → Bool) (excludeGlobs includeGlobs : List Str) :
    Str → List FSEntry → List Str
  | _, [] => []
  | parent, .file n :: rest =>
    let rel := relJoin parent n
    (if gi rel then []
     else if MatchAny excludeGlobs rel && !MatchAny includeGlobs rel then []
     else [rel]) ++ walkList gi excludeGlobs includeGlobs parent rest
  | parent, .dir n cs :: rest =>
    let rel := relJoin parent n
    (if gi rel then []
     else if MatchAny excludeGlobs (rel ++ ['/']) then []
     else walkList gi excludeGlobs includeGlobs rel cs)
      ++ walkList gi excludeGlobs includeGlobs parent rest

/-! ### Helper lemmas -/

/-- The head surviving `dropWhile p` does not satisfy `p`. -/
theorem dropWhile_head?_not (p : Char → Bool) :
    ∀ (v : Str) (c : Char), (v.dropWhile p).head? = some c → p c = false := by
  intro v
  induction v with
  | nil => intro c h; simp [List.dropWhile] at h
  | cons a t ih =>
    intro c h
    by_cases hp : p a
    · exact ih c (by simpa [List.dropWhile, hp] using h)
    · simp only [List.dropWhile, hp, Bool.false_eq_true, if_false] at h
      simp only [List.head?, Option.some.injEq] at h
      simpa [← h] using hp

/-- `goStartsWith s pre` holds exactly when `s` extends `pre`. -/
theorem goStartsWith_iff : ∀ (s pre : Str), goStartsWith s pre = true ↔ ∃ t, s = pre ++ t := by
  intro s pre
  induction pre generalizing s with
  | nil => simp [goStartsWith]
  | cons p ps ih =>
    cases s with
    | nil => simp [goStartsWith]
    | cons c t =>
      simp only [goStartsWith, Bool.and_eq_true, beq_iff_eq, ih]
      constructor
      · rintro ⟨rfl, u, rfl⟩; exact ⟨u, rfl⟩
      · rintro ⟨u, hu⟩
        simp only [List.cons_append, List.cons.injEq] at hu
        exact ⟨hu.1, u, hu.2⟩

/-- `trimSpaceGo` never leaves trailing whitespace. -/
theorem trimSpaceGo_last_not_space (ln : Str) (c : Char)
    (h : (trimSpaceGo ln).reverse.head? = some c) : isSpaceGo c = false := by
  unfold trimSpaceGo at h
  rw [List.reverse_reverse] at h
  exact dropWhile_head?_not isSpaceGo _ c h

/-- A trimmed line that starts with `"# "` keeps a non-empty remainder
after the marker is stripped (the marker's space would otherwise have
been trimmed away). -/
theorem trimPref_heading_ne_nil (ln : Str)
    (h : goStartsWith (trimSpaceGo ln) "# ".toList = true) :
    (goTrimPref (trimSpaceGo ln) "# ".toList).isEmpty = false := by
  obtain ⟨t, ht⟩ := (goStartsWith_iff _ _).1 h
  have hdrop : goTrimPref (trimSpaceGo ln) "# ".toList = t := by
    unfold goTrimPref
    rw [if_pos h, ht]
    exact List.drop_left _ _
  rw [hdrop]
  cases t with
  | nil =>
    exfalso
    have : (trimSpaceGo ln).reverse.head? = some ' ' := by
      rw [ht]; rfl
    have := trimSpaceGo_last_not_space ln ' ' this
    simp [isSpaceGo] at this
  | cons a b => rfl

/-- A line starting with `"# "` starts with `"#"`. -/
theorem startsWith_hash_of_heading (u : Str)
    (h : goStartsWith u "# ".toList = true) : goStartsWith u "#".toList = true := by
  obtain ⟨t, rfl⟩ := (goStartsWith_iff _ _).1 h
  exact (goStartsWith_iff _ _).2 ⟨' ' :: t, rfl⟩

/-! ### A declarative reading of `parseDecision` -/

/-- The first line (trimmed) carrying a single-`#` heading marker, with
the marker stripped; empty if there is none. -/
def firstHeadingTitle : List Str → Str
  | [] => []
  | ln :: rest =>
    let trim := trimSpaceGo ln
    if goStartsWith trim "# ".toList then goTrimPref trim "# ".toList
    else firstHeadingTitle rest

/-- The first non-empty trimmed line that does not start with `#`;
empty if there is none. -/
def firstPlainLine : List Str → Str
  | [] => []
  | ln :: rest =>
    let trim := trimSpaceGo ln
    if !trim.isEmpty && !goStartsWith trim "#".toList then trim
    else firstPlainLine rest

/-- The state loop of `parseDecision` computes the first heading and
the first plain line, each field frozen once set (the early `break`
cannot change the outcome because both fields are first-match). -/
theorem parseDecisionLoop_spec :
    ∀ (lines : List Str) (t s : Str),
      parseDecisionLoop lines t s =
        ((if t.isEmpty then firstHeadingTitle lines else t),
         (if s.isEmpty then firstPlainLine lines else s)) := by
  intro lines
  induction lines with
  | nil =>
    intro t s
    cases t <;> cases s <;>
      simp [parseDecisionLoop, firstHeadingTitle, firstPlainLine]
  | cons ln rest ih =>
    intro t s
    by_cases hh : goStartsWith (trimSpaceGo ln) ['#', ' '] = true
    · have hh0 : goStartsWith (trimSpaceGo ln) "# ".toList = true := by simpa using hh
      have hhash : goStartsWith (trimSpaceGo ln) ['#'] = true := by
        simpa using startsWith_hash_of_heading _ hh0
      have hne : ¬ goTrimPref (trimSpaceGo ln) ['#', ' '] = [] := by
        simpa using trimPref_heading_ne_nil ln hh0
      by_cases ht : t = [] <;> by_cases hs : s = [] <;>
        simp [parseDecisionLoop, firstHeadingTitle, firstPlainLine,
          hh, hhash, hne, ht, hs, ih]
    · by_cases htr : trimSpaceGo ln = []
      · by_cases ht : t = [] <;> by_cases hs : s = [] <;>
          simp [parseDecisionLoop, firstHeadingTitle, firstPlainLine,
            goStartsWith, hh, htr, ht, hs, ih]
      · by_cases hhash : goStartsWith (trimSpaceGo ln) ['#'] = true
        · by_cases ht : t = [] <;> by_cases hs : s = [] <;>
            simp [parseDecisionLoop, firstHeadingTitle, firstPlainLine,
              hh, htr, hhash, ht, hs, ih]
        · by_cases ht : t = [] <;> by_cases hs : s = [] <;>
            simp [parseDecisionLoop, firstHeadingTitle, firstPlainLine,
              hh, htr, hhash, ht, hs, ih]

/-! ### Per-file contributions of the merge phase -/

/-- The `GoModules` entries one candidate path contributes. -/
def gmContrib (cfg : Config) (fs : Str → Option Str) (p : Str) : List GoModule :=
  match classify p with
  | .gomod => (parseGoMod fs (joinPath cfg.root p)).toList
  | _ => []

/-- The `Proto` entries one candidate path contributes. -/
def protoContrib (cfg : Config) (fs : Str → Option Str) (p : Str) : List ProtoInfo :=
  match classify p with
  | .proto => (parseProto fs (joinPath cfg.root p) cfg.maxFileBytes).toList
  | _ => []

/-- The `MakeTargets` entries one candidate path contributes. -/
def mtContrib (cfg : Config) (fs : Str → Option Str) (p : Str) : List Str :=
  match classify p with
  | .makefile => (parseMakeTargets fs (joinPath cfg.root p) cfg.maxFileBytes).getD []
  | _ => []

/-- The `Dockerfiles` entries one candidate path contributes. -/
def dockerContrib (p : Str) : List Str :=
  match classify p with
  | .dockerfile => [p]
  | _ => []

/-- The `SQLMigrations` entries one candidate path contributes. -/
def sqlContrib (p : Str) : List Str :=
  match classify p with
  | .sql =>
    if goContains (toLowerGo p) "migrat".toList
        || goContains (toLowerGo p) "schema".toList then [p]
    else []
  | _ => []

/-- The `Decisions` entries one candidate path contributes. -/
def decContrib (cfg : Config) (fs : Str → Option Str) (p : Str) : List Decision :=
  match classify p with
  | .decision => (parseDecision fs (joinPath cfg.root p) cfg.maxFileBytes).toList
  | _ => []

/-- The `EnvExamples` entries one candidate path contributes. -/
def envContrib (p : Str) : List Str :=
  match classify p with
  | .env => [p]
  | _ => []

/-- The `Licenses` entries one candidate path contributes. -/
def licContrib (p : Str) : List Str :=
  match classify p with
  | .license => [p]
  | _ => []

/-- The `Readmes` entries one candidate path contributes (appended on
both the parse-success and parse-failure branches). -/
def readmeContrib (p : Str) : List Str :=
  match classify p with
  | .readme => [p]
  | _ => []

theorem processFile_goModules (cfg : Config) (fs : Str → Option Str)
    (s : Summary) (p : Str) :
    (processFile cfg fs s p).goModules = s.goModules ++ gmContrib cfg fs p := by
  unfold processFile gmContrib
  cases h : classify p <;> simp only [h] <;> (try split) <;> simp_all

theorem processFile_proto (cfg : Config) (fs : Str → Option Str)
    (s : Summary) (p : Str) :
    (processFile cfg fs s p).proto = s.proto ++ protoContrib cfg fs p := by
  unfold processFile protoContrib
  cases h : classify p <;> simp only [h] <;> (try split) <;> simp_all

theorem processFile_makeTargets (cfg : Config) (fs : Str → Option Str)
    (s : Summary) (p : Str) :
    (processFile cfg fs s p).makeTargets = s.makeTargets ++ mtContrib cfg fs p := by
  unfold processFile mtContrib
  cases h : classify p <;> simp only [h] <;> (try split) <;> simp_all

theorem processFile_dockerfiles (cfg : Config) (fs : Str → Option Str)
    (s : Summary) (p : Str) :
    (processFile cfg fs s p).dockerfiles = s.dockerfiles ++ dockerContrib p := by
  unfold processFile dockerContrib
  cases h : classify p <;> simp only [h] <;> (try split) <;> simp_all

theorem processFile_sqlMigrations (cfg : Config) (fs : Str → Option Str)
    (s : Summary) (p : Str) :
    (processFile cfg fs s p).sqlMigrations = s.sqlMigrations ++ sqlContrib p := by
  unfold processFile sqlContrib
  cases h : classify p <;> simp only [h] <;> (try split) <;> simp_all

theorem processFile_decisions (cfg : Config) (fs : Str → Option Str)
    (s : Summary) (p : Str) :
    (processFile cfg fs s p).decisions = s.decisions ++ decContrib cfg fs p := by
  unfold processFile decContrib
  cases h : classify p <;> simp only [h] <;> (try split) <;> simp_all

theorem processFile_envExamples (cfg : Config) (fs : Str → Option Str)
    (s : Summary) (p : Str) :
    (processFile cfg fs s p).envExamples = s.envExamples ++ envContrib p := by
  unfold processFile envContrib
  cases h : classify p <;> simp only [h] <;> (try split) <;> simp_all

theorem processFile_licenses (cfg : Config) (fs : Str → Option Str)
    (s : Summary) (p : Str) :
    (processFile cfg fs s p).licenses = s.licenses ++ licContrib p := by
  unfold processFile licContrib
  cases h : classify p <;> simp only [h] <;> (try split) <;> simp_all

theorem processFile_readmes (cfg : Config) (fs : Str → Option Str)
    (s : Summary) (p : Str) :
    (processFile cfg fs s p).readmes = s.readmes ++ readmeContrib p := by
  unfold processFile readmeContrib
  cases h : classify p <;> simp only [h] <;> (try split) <;> simp_all

theorem processFile_techStats (cfg : Config) (fs : Str → Option Str)
    (s : Summary) (p : Str) :
    (processFile cfg fs s p).techStats = techBump s.techStats (statExt p) := by
  unfold processFile
  cases h : classify p <;> simp only [h] <;> (try split) <;> simp_all

/-- Folding the worker over a candidate list appends, per field, the
concatenated per-file contributions (the generic shape behind the seven
collection fields). -/
theorem foldl_processFile_field {α : Type} (F : Summary → List α)
    (contrib : Str → List α) (cfg : Config) (fs : Str → Option Str)
    (h : ∀ s p, F (processFile cfg fs s p) = F s ++ contrib p) :
    ∀ (order : List Str) (s : Summary),
      F (order.foldl (processFile cfg fs) s) = F s ++ order.flatMap contrib := by
  intro order
  induction order with
  | nil => intro s; simp
  | cons p rest ih =>
    intro s
    simp only [List.foldl_cons, List.flatMap_cons, ih, h, List.append_assoc]

/-- Total count recorded in the extension histogram. -/
def techSum (m : List (Str × Nat)) : Nat := (m.map (fun kv => kv.2)).sum

theorem techSum_techBump (m : List (Str × Nat)) (k : Str) :
    techSum (techBump m k) = techSum m + 1 := by
  induction m with
  | nil => simp [techBump, techSum]
  | cons kv t ih =>
    obtain ⟨k0, n⟩ := kv
    by_cases h : k0 == k <;> simp [techBump, techSum, h] at * <;> omega

theorem foldl_processFile_techSum (cfg : Config) (fs : Str → Option Str) :
    ∀ (order : List Str) (s : Summary),
      techSum (order.foldl (processFile cfg fs) s).techStats =
        techSum s.techStats + order.length := by
  intro order
  induction order with
  | nil => intro s; simp
  | cons p rest ih =>
    intro s
    simp only [List.foldl_cons, ih, processFile_techStats, techSum_techBump,
      List.length_cons]
    omega

/-- `consolidateCoverage` touches only the `testCoverage` field. -/
theorem consolidateCoverage_fields (cfg : Config) (fs : Str → Option Str)
    (cuke : Str → Nat × Nat × Nat) (sum : Summary) :
    (consolidateCoverage cfg fs cuke sum).goModules = sum.goModules ∧
    (consolidateCoverage cfg fs cuke sum).proto = sum.proto ∧
    (consolidateCoverage cfg fs cuke sum).makeTargets = sum.makeTargets ∧
    (consolidateCoverage cfg fs cuke sum).dockerfiles = sum.dockerfiles ∧
    (consolidateCoverage cfg fs cuke sum).sqlMigrations = sum.sqlMigrations ∧
    (consolidateCoverage cfg fs cuke sum).decisions = sum.decisions ∧
    (consolidateCoverage cfg fs cuke sum).envExamples = sum.envExamples ∧
    (consolidateCoverage cfg fs cuke sum).licenses = sum.licenses ∧
    (consolidateCoverage cfg fs cuke sum).readmes = sum.readmes ∧
    (consolidateCoverage cfg fs cuke sum).readmeSummaries = sum.readmeSummaries ∧
    (consolidateCoverage cfg fs cuke sum).techStats = sum.techStats := by
  cases h : sum.testCoverage <;> simp [consolidateCoverage, h]

instance : IsTotal GoModule (fun a b => a.path ≤ b.path) :=
  ⟨fun a b => le_total a.path b.path⟩

instance : IsTrans GoModule (fun a b => a.path ≤ b.path) :=
  ⟨fun _ _ _ h1 h2 => le_trans h1 h2⟩

instance : IsAntisymm GoModule (fun a b => a.path < b.path) :=
  ⟨fun _ _ h1 h2 => absurd h1 (lt_asymm h2)⟩

/-- Sorting the same multiset of strings gives the same list: the model
of `sort.Strings` is insensitive to merge order. -/
theorem sortStrs_eq_of_perm {l₁ l₂ : List Str} (h : l₁.Perm l₂) :
    sortStrs l₁ = sortStrs l₂ :=
  List.eq_of_perm_of_sorted
    ((List.perm_insertionSort _ l₁).trans (h.trans (List.perm_insertionSort _ l₂).symm))
    (List.sorted_insertionSort _ l₁) (List.sorted_insertionSort _ l₂)

/-- Sorting `GoModules` by `Path` is insensitive to merge order when the
paths are pairwise distinct (Go's `sort.Slice` is unstable, but distinct
keys make the sorted permutation unique). -/
theorem sortGoModules_eq_of_perm {l₁ l₂ : List GoModule} (h : l₁.Perm l₂)
    (hnd : (l₁.map GoModule.path).Nodup) :
    sortGoModules l₁ = sortGoModules l₂ := by
  have hp : (sortGoModules l₁).Perm (sortGoModules l₂) :=
    (List.perm_insertionSort _ l₁).trans (h.trans (List.perm_insertionSort _ l₂).symm)
  have hs₁ : List.Sorted (fun a b : GoModule => a.path ≤ b.path) (sortGoModules l₁) :=
    List.sorted_insertionSort _ l₁
  have hs₂ : List.Sorted (fun a b : GoModule => a.path ≤ b.path) (sortGoModules l₂) :=
    List.sorted_insertionSort _ l₂
  have hnd₁ : ((sortGoModules l₁).map GoModule.path).Nodup :=
    (((List.perm_insertionSort _ l₁).map GoModule.path).nodup_iff).2 hnd
  have hnd₂ : ((sortGoModules l₂).map GoModule.path).Nodup :=
    ((hp.map GoModule.path).nodup_iff).1 hnd₁
  have strict : ∀ (l : List GoModule),
      List.Sorted (fun a b : GoModule => a.path ≤ b.path) l →
      (l.map GoModule.path).Nodup →
      List.Sorted (fun a b : GoModule => a.path < b.path) l := by
    intro l hle hnod
    have hne : l.Pairwise (fun a b : GoModule => a.path ≠ b.path) :=
      (List.pairwise_map).1 hnod
    exact (hle.and hne).imp (fun hab => lt_of_le_of_ne hab.1 hab.2)
  exact List.eq_of_perm_of_sorted hp (strict _ hs₁ hnd₁) (strict _ hs₂ hnd₂)

theorem runScan_goModules (cfg : Config) (fs : Str → Option Str)
    (cuke : Str → Nat × Nat × Nat) (order : List Str) :
    (runScan cfg fs cuke order).goModules
      = sortGoModules (order.flatMap (gmContrib cfg fs)) := by
  have h1 := (consolidateCoverage_fields cfg fs cuke
    (order.foldl (processFile cfg fs) (emptySummary cfg.root))).1
  have h2 := foldl_processFile_field (fun s => s.goModules) (gmContrib cfg fs) cfg fs
    (processFile_goModules cfg fs) order (emptySummary cfg.root)
  simp only [runScan, finalizeSummary]
  rw [h1, h2]
  simp [emptySummary]

theorem runScan_proto (cfg : Config) (fs : Str → Option Str)
    (cuke : Str → Nat × Nat × Nat) (order : List Str) :
    (runScan cfg fs cuke order).proto = order.flatMap (protoContrib cfg fs) := by
  have h1 := (consolidateCoverage_fields cfg fs cuke
    (order.foldl (processFile cfg fs) (emptySummary cfg.root))).2.1
  have h2 := foldl_processFile_field (fun s => s.proto) (protoContrib cfg fs) cfg fs
    (processFile_proto cfg fs) order (emptySummary cfg.root)
  simp only [runScan, finalizeSummary]
  rw [h1, h2]
  simp [emptySummary]

theorem runScan_makeTargets (cfg : Config) (fs : Str → Option Str)
    (cuke : Str → Nat × Nat × Nat) (order : List Str) :
    (runScan cfg fs cuke order).makeTargets
      = sortStrs (order.flatMap (mtContrib cfg fs)) := by
  have h1 := (consolidateCoverage_fields cfg fs cuke
    (order.foldl (processFile cfg fs) (emptySummary cfg.root))).2.2.1
  have h2 := foldl_processFile_field (fun s => s.makeTargets) (mtContrib cfg fs) cfg fs
    (processFile_makeTargets cfg fs) order (emptySummary cfg.root)
  simp only [runScan, finalizeSummary]
  rw [h1, h2]
  simp [emptySummary]

theorem runScan_dockerfiles (cfg : Config) (fs : Str → Option Str)
    (cuke : Str → Nat × Nat × Nat) (order : List Str) :
    (runScan cfg fs cuke order).dockerfiles = sortStrs (order.flatMap dockerContrib) := by
  have h1 := (consolidateCoverage_fields cfg fs cuke
    (order.foldl (processFile cfg fs) (emptySummary cfg.root))).2.2.2.1
  have h2 := foldl_processFile_field (fun s => s.dockerfiles) dockerContrib cfg fs
    (processFile_dockerfiles cfg fs) order (emptySummary cfg.root)
  simp only [runScan, finalizeSummary]
  rw [h1, h2]
  simp [emptySummary]

theorem runScan_sqlMigrations (cfg : Config) (fs : Str → Option Str)
    (cuke : Str → Nat × Nat × Nat) (order : List Str) :
    (runScan cfg fs cuke order).sqlMigrations = sortStrs (order.flatMap sqlContrib) := by
  have h1 := (consolidateCoverage_fields cfg fs cuke
    (order.foldl (processFile cfg fs) (emptySummary cfg.root))).2.2.2.2.1
  have h2 := foldl_processFile_field (fun s => s.sqlMigrations) sqlContrib cfg fs
    (processFile_sqlMigrations cfg fs) order (emptySummary cfg.root)
  simp only [runScan, finalizeSummary]
  rw [h1, h2]
  simp [emptySummary]

theorem runScan_decisions (cfg : Config) (fs : Str → Option Str)
    (cuke : Str → Nat × Nat × Nat) (order : List Str) :
    (runScan cfg fs cuke order).decisions = order.flatMap (decContrib cfg fs) := by
  have h1 := (consolidateCoverage_fields cfg fs cuke
    (order.foldl (processFile cfg fs) (emptySummary cfg.root))).2.2.2.2.2.1
  have h2 := foldl_processFile_field (fun s => s.decisions) (decContrib cfg fs) cfg fs
    (processFile_decisions cfg fs) order (emptySummary cfg.root)
  simp only [runScan, finalizeSummary]
  rw [h1, h2]
  simp [emptySummary]

theorem runScan_envExamples (cfg : Config) (fs : Str → Option Str)
    (cuke : Str → Nat × Nat × Nat) (order : List Str) :
    (runScan cfg fs cuke order).envExamples = sortStrs (order.flatMap envContrib) := by
  have h1 := (consolidateCoverage_fields cfg fs cuke
    (order.foldl (processFile cfg fs) (emptySummary cfg.root))).2.2.2.2.2.2.1
  have h2 := foldl_processFile_field (fun s => s.envExamples) envContrib cfg fs
    (processFile_envExamples cfg fs) order (emptySummary cfg.root)
  simp only [runScan, finalizeSummary]
  rw [h1, h2]
  simp [emptySummary]

theorem runScan_licenses (cfg : Config) (fs : Str → Option Str)
    (cuke : Str → Nat × Nat × Nat) (order : List Str) :
    (runScan cfg fs cuke order).licenses = sortStrs (order.flatMap licContrib) := by
  have h1 := (consolidateCoverage_fields cfg fs cuke
    (order.foldl (processFile cfg fs) (emptySummary cfg.root))).2.2.2.2.2.2.2.1
  have h2 := foldl_processFile_field (fun s => s.licenses) licContrib cfg fs
    (processFile_licenses cfg fs) order (emptySummary cfg.root)
  simp only [runScan, finalizeSummary]
  rw [h1, h2]
  simp [emptySummary]

theorem runScan_readmes (cfg : Config) (fs : Str → Option Str)
    (cuke : Str → Nat × Nat × Nat) (order : List Str) :
    (runScan cfg fs cuke order).readmes = sortStrs (order.flatMap readmeContrib) := by
  have h1 := (consolidateCoverage_fields cfg fs cuke
    (order.foldl (processFile cfg fs) (emptySummary cfg.root))).2.2.2.2.2.2.2.2.1
  have h2 := foldl_processFile_field (fun s => s.readmes) readmeContrib cfg fs
    (processFile_readmes cfg fs) order (emptySummary cfg.root)
  simp only [runScan, finalizeSummary]
  rw [h1, h2]
  simp [emptySummary]

theorem runScan_techSum (cfg : Config) (fs : Str → Option Str)
    (cuke : Str → Nat × Nat × Nat) (order : List Str) :
    techSum (runScan cfg fs cuke order).techStats = order.length := by
  have h1 := (consolidateCoverage_fields cfg fs cuke
    (order.foldl (processFile cfg fs) (emptySummary cfg.root))).2.2.2.2.2.2.2.2.2.2
  have h2 := foldl_processFile_techSum cfg fs order (emptySummary cfg.root)
  simp only [runScan, finalizeSummary]
  rw [h1, h2]
  simp [emptySummary, techSum]

theorem parseGoModLine_path (gm : GoModule) (ln : Str) :
    (parseGoModLine gm ln).path = gm.path := by
  simp only [parseGoModLine]
  split_ifs <;> rfl

theorem parseGoMod_path (fs : Str → Option Str) (path : Str) (gm : GoModule)
    (h : parseGoMod fs path = some gm) : gm.path = path := by
  unfold parseGoMod at h
  cases hf : fs path with
  | none => simp [hf] at h
  | some data =>
    rw [hf] at h
    simp only [Option.some.injEq] at h
    subst h
    generalize splitOnCharGo '\n' data = lines
    suffices hgen : ∀ (lines : List Str) (gm0 : GoModule),
        (lines.foldl parseGoModLine gm0).path = gm0.path by
      exact hgen lines ⟨path, [], []⟩
    intro lines0
    induction lines0 with
    | nil => intro gm0; rfl
    | cons ln rest ih =>
      intro gm0
      simp only [List.foldl_cons, ih, parseGoModLine_path]

theorem parseProtoLine_file (pi : ProtoInfo) (ln : Str) :
    (parseProtoLine pi ln).file = pi.file := by
  simp only [parseProtoLine]
  split_ifs <;> rfl

theorem parseProto_file (fs : Str → Option Str) (path : Str) (maxBytes : Int)
    (pi : ProtoInfo) (h : parseProto fs path maxBytes = some pi) : pi.file = path := by
  unfold parseProto at h
  cases hr : ReadHead (fs path) maxBytes with
  | error e => rw [hr] at h; exact absurd h (by simp)
  | ok head =>
    rw [hr] at h
    simp only [Option.some.injEq] at h
    subst h
    generalize splitOnCharGo '\n' head = lines
    suffices hgen : ∀ (lines : List Str) (pi0 : ProtoInfo),
        (lines.foldl parseProtoLine pi0).file = pi0.file by
      exact hgen lines ⟨path, [], [], []⟩
    intro lines0
    induction lines0 with
    | nil => intro pi0; rfl
    | cons ln rest ih =>
      intro pi0
      simp only [List.foldl_cons, ih, parseProtoLine_file]

theorem parseDecision_file (fs : Str → Option Str) (path : Str) (maxBytes : Int)
    (d : Decision) (h : parseDecision fs path maxBytes = some d) : d.file = path := by
  unfold parseDecision at h
  cases hr : ReadHead (fs path) maxBytes with
  | error e => rw [hr] at h; exact absurd h (by simp)
  | ok head =>
    rw [hr] at h
    simp only [Option.some.injEq] at h
    subst h
    rfl

theorem parseReadmeSummary_file (fs : Str → Option Str) (path : Str) (maxBytes : Int)
    (rs : ReadmeSummary) (h : parseReadmeSummary fs path maxBytes = some rs) :
    rs.file = path := by
  unfold parseReadmeSummary at h
  cases hr : ReadHead (fs path) maxBytes with
  | error e => rw [hr] at h; exact absurd h (by simp)
  | ok head =>
    rw [hr] at h
    simp only [Option.some.injEq] at h
    subst h
    rfl

/-- A binding found after a Go map assignment is the new binding or an
old one. -/
theorem mem_mapSet {α : Type} (m : List (Str × α)) (k : Str) (v : α)
    (kv : Str × α) (h : kv ∈ mapSet m k v) : kv = (k, v) ∨ kv ∈ m := by
  induction m with
  | nil =>
    simp only [mapSet, List.mem_singleton] at h
    exact Or.inl h
  | cons kv0 t ih =>
    obtain ⟨k0, v0⟩ := kv0
    simp only [mapSet] at h
    split at h
    · rcases List.mem_cons.1 h with h1 | h1
      · exact Or.inl h1
      · exact Or.inr (List.mem_cons_of_mem _ h1)
    · rcases List.mem_cons.1 h with h1 | h1
      · exact Or.inr (by simp [h1])
      · rcases ih h1 with h2 | h2
        · exact Or.inl h2
        · exact Or.inr (List.mem_cons_of_mem _ h2)

/-- Any readme-summary binding in the processed summary is an old one or
records the processed path with its root-joined file path. -/
theorem processFile_readmeSummaries_mem (cfg : Config) (fs : Str → Option Str)
    (s : Summary) (p : Str) (kv : Str × ReadmeSummary)
    (h : kv ∈ (processFile cfg fs s p).readmeSummaries) :
    kv ∈ s.readmeSummaries ∨ (kv.1 = p ∧ kv.2.file = joinPath cfg.root p) := by
  have hmain : (processFile cfg fs s p).readmeSummaries = s.readmeSummaries
      ∨ ∃ rs, parseReadmeSummary fs (joinPath cfg.root p) cfg.maxFileBytes = some rs ∧
          (processFile cfg fs s p).readmeSummaries = mapSet s.readmeSummaries p rs := by
    unfold processFile
    cases hc : classify p <;> simp only [hc] <;> (try split) <;>
      first
        | (left; simp; done)
        | (right; exact ⟨_, (by assumption), by simp⟩)
  rcases hmain with he | ⟨rs, hp, he⟩
  · rw [he] at h
    exact Or.inl h
  · rw [he] at h
    rcases mem_mapSet _ _ _ _ h with h2 | h2
    · subst h2
      exact Or.inr ⟨rfl, parseReadmeSummary_file fs _ _ rs hp⟩
    · exact Or.inl h2

/-- Readme-summary bindings after the merge fold: old, or keyed by a
processed path and holding its root-joined file path. -/
theorem foldl_readmeSummaries_mem (cfg : Config) (fs : Str → Option Str) :
    ∀ (order : List Str) (s : Summary) (kv : Str × ReadmeSummary),
      kv ∈ (order.foldl (processFile cfg fs) s).readmeSummaries →
      kv ∈ s.readmeSummaries ∨ (kv.1 ∈ order ∧ kv.2.file = joinPath cfg.root kv.1) := by
  intro order
  induction order with
  | nil => intro s kv h; exact Or.inl (by simpa using h)
  | cons p rest ih =>
    intro s kv h
    rcases ih (processFile cfg fs s p) kv (by simpa using h) with h1 | h1
    · rcases processFile_readmeSummaries_mem cfg fs s p kv h1 with h2 | h2
      · exact Or.inl h2
      · exact Or.inr ⟨by simp [h2.1], h2.1 ▸ h2.2⟩
    · exact Or.inr ⟨List.mem_cons_of_mem _ h1.1, h1.2⟩

theorem gmContrib_path (cfg : Config) (fs : Str → Option Str) (p : Str)
    (gm : GoModule) (h : gm ∈ gmContrib cfg fs p) : gm.path = joinPath cfg.root p := by
  unfold gmContrib at h
  split at h
  · cases hp : parseGoMod fs (joinPath cfg.root p) with
    | none => rw [hp] at h; simp at h
    | some gm0 =>
      rw [hp] at h
      simp only [Option.toList_some, List.mem_singleton] at h
      subst h
      exact parseGoMod_path _ _ _ hp
  · simp at h

theorem gmContrib_length (cfg : Config) (fs : Str → Option Str) (p : Str) :
    (gmContrib cfg fs p).length ≤ 1 := by
  unfold gmContrib
  split
  · cases parseGoMod fs (joinPath cfg.root p) <;> simp
  · simp

theorem protoContrib_file (cfg : Config) (fs : Str → Option Str) (p : Str)
    (pi : ProtoInfo) (h : pi ∈ protoContrib cfg fs p) : pi.file = joinPath cfg.root p := by
  unfold protoContrib at h
  split at h
  · cases hp : parseProto fs (joinPath cfg.root p) cfg.maxFileBytes with
    | none => rw [hp] at h; simp at h
    | some pi0 =>
      rw [hp] at h
      simp only [Option.toList_some, List.mem_singleton] at h
      subst h
      exact parseProto_file _ _ _ _ hp
  · simp at h

theorem decContrib_file (cfg : Config) (fs : Str → Option Str) (p : Str)
    (d : Decision) (h : d ∈ decContrib cfg fs p) : d.file = joinPath cfg.root p := by
  unfold decContrib at h
  split at h
  · cases hp : parseDecision fs (joinPath cfg.root p) cfg.maxFileBytes with
    | none => rw [hp] at h; simp at h
    | some d0 =>
      rw [hp] at h
      simp only [Option.toList_some, List.mem_singleton] at h
      subst h
      exact parseDecision_file _ _ _ _ hp
  · simp at h

theorem dockerContrib_mem (p q : Str) (h : q ∈ dockerContrib p) : q = p := by
  unfold dockerContrib at h
  split at h <;> simp at h
  exact h

theorem sqlContrib_mem (p q : Str) (h : q ∈ sqlContrib p) : q = p := by
  unfold sqlContrib at h
  split at h
  · split at h <;> simp at h
    exact h
  · simp at h

theorem envContrib_mem (p q : Str) (h : q ∈ envContrib p) : q = p := by
  unfold envContrib at h
  split at h <;> simp at h
  exact h

theorem licContrib_mem (p q : Str) (h : q ∈ licContrib p) : q = p := by
  unfold licContrib at h
  split at h <;> simp at h
  exact h

theorem readmeContrib_mem (p q : Str) (h : q ∈ readmeContrib p) : q = p := by
  unfold readmeContrib at h
  split at h <;> simp at h
  exact h

theorem joinPath_injective (root : Str) {p q : Str}
    (h : joinPath root p = joinPath root q) : p = q := by
  unfold joinPath at h
  have h2 := List.append_cancel_left h
  exact (List.cons_eq_cons.1 h2).2

/-- A per-path contribution that yields at most one element whose key is
the root-joined path keeps its keys pairwise distinct over a duplicate-free
candidate list. -/
theorem nodup_flatMap_key {β : Type} (key : β → Str) (f : Str → List β) (root : Str)
    (hlen : ∀ p, (f p).length ≤ 1)
    (hkey : ∀ p b, b ∈ f p → key b = joinPath root p) :
    ∀ (order : List Str), order.Nodup → ((order.flatMap f).map key).Nodup := by
  intro order
  induction order with
  | nil => intro h; simp
  | cons p rest ih =>
    intro h
    rcases List.nodup_cons.1 h with ⟨hp, hrest⟩
    simp only [List.flatMap_cons, List.map_append]
    apply List.Nodup.append
    · cases hf : f p with
      | nil => simp
      | cons b t =>
        cases t with
        | nil => simp
        | cons b2 t2 =>
          have := hlen p
          rw [hf] at this
          simp at this
    · exact ih hrest
    · intro a ha ha2
      simp only [List.mem_map] at ha
      rcases ha with ⟨b, hb, rfl⟩
      simp only [List.mem_map, List.mem_flatMap] at ha2
      rcases ha2 with ⟨b2, ⟨q, hq, hbq⟩, hkeyeq⟩
      have h1 := hkey p b hb
      have h2 := hkey q b2 hbq
      have : p = q := joinPath_injective root (by rw [← h1, ← hkeyeq, h2])
      exact hp (this ▸ hq)

theorem runScan_readmeSummaries (cfg : Config) (fs : Str → Option Str)
    (cuke : Str → Nat × Nat × Nat) (order : List Str) :
    (runScan cfg fs cuke order).readmeSummaries
      = (order.foldl (processFile cfg fs) (emptySummary cfg.root)).readmeSummaries := by
  have h1 := (consolidateCoverage_fields cfg fs cuke
    (order.foldl (processFile cfg fs) (emptySummary cfg.root))).2.2.2.2.2.2.2.2.2.1
  simp only [runScan, finalizeSummary]
  rw [h1]

/-- The gitignore-excludes-despite-include part of the walk contract,
proved over every matcher predicate, glob list and tree. -/
theorem walk_no_gitignored (gi : Str → Bool) (exc inc : List Str) :
    ∀ (parent : Str) (es : List FSEntry) (p : Str),
      p ∈ walkList gi exc inc parent es → gi p = false := by
  intro parent es
  induction parent, es using walkList.induct gi exc inc with
  | case1 parent => intro p h; simp [walkList] at h
  | case2 parent n rest ih =>
    intro p h
    simp [walkList] at h
    rcases h with ⟨hgi, _, rfl⟩ | h
    · exact hgi
    · exact ih p h
  | case3 parent n cs rest rel ih1 ih2 =>
    intro p h
    simp [walkList] at h
    rcases h with ⟨hgi, _, hmem⟩ | h
    · exact ih1 p hmem
    · exact ih2 p h

theorem mem_sortStrs {l : List Str} {a : Str} (h : a ∈ sortStrs l) : a ∈ l :=
  ((List.perm_insertionSort _ l).mem_iff).1 h

theorem mem_sortGoModules {l : List GoModule} {a : GoModule}
    (h : a ∈ sortGoModules l) : a ∈ l :=
  ((List.perm_insertionSort _ l).mem_iff).1 h

/-! ### Concrete scan inputs used by the claims -/

/-- A cucumber-report oracle returning zero counts (no BDD reports occur
in the concrete scans below). -/
def cuke0 : Str → Nat × Nat × Nat := fun _ => (0, 0, 0)

/-- An empty filesystem: every open fails. -/
def fs0 : Str → Option Str := fun _ => none

/-- The go.mod of the spec's manifest example. -/
def fsC1 : Str → Option Str := fun p =>
  if p == "/r/go.mod".toList then
    some "module example.com/app\nrequire (\n  github.com/x v1.0.0\n)".toList
  else none

def cfgC2 : Config := ⟨"/r".toList, 65536⟩

/-- Two proto files whose extraction order is decided by worker
scheduling. -/
def fsC2 : Str → Option Str := fun p =>
  if p == "/r/a.proto".toList then some "package a;\n".toList
  else if p == "/r/b.proto".toList then some "package b;\n".toList
  else none

def cfgC3 : Config := ⟨"/r".toList, 65536⟩

/-- A single nested go.mod. -/
def fsC3 : Str → Option Str := fun p =>
  if p == "/r/m/go.mod".toList then some "module m\n".toList else none

def cfgC5 : Config := ⟨"/r".toList, 65536⟩

/-- The two coverage profiles of the spec's aggregation example. -/
def fsC5 : Str → Option Str := fun p =>
  if p == "/r/c1/coverage.out".toList then some "mode: set\na.go:1.1,2.2 3 1\n".toList
  else if p == "/r/c2/coverage.txt".toList then some "mode: set\nb.go:1.1,2.2 5 0\n".toList
  else none

def cfgC6 : Config := ⟨"/r".toList, 65536⟩

/-- A coverage profile containing only the mode header (zero parsed
statements). -/
def fsC6 : Str → Option Str := fun p =>
  if p == "/r/coverage.out".toList then some "mode: set\n".toList else none

/-- A decision record whose first plain line precedes its title. -/
def fsC7 : Str → Option Str := fun p =>
  if p == "/r/docs/decisions/d.md".toList then
    some "intro line\n# Title\nbody after".toList
  else none

/-- A gitignore matcher predicate that matches exactly `node_modules`. -/
def giW : Str → Bool := fun p => p == "node_modules".toList

def excW : List Str := []

/-- An include glob list that would force-include the ignored subtree if
include globs could override gitignore rules. -/
def incW : List Str := ["node_modules/**".toList]

/-! ### The claims -/

/-- C1: the spec's manifest example demands module `example.com/app` and
the dependency list `[github.com/x]`, but `parseGoMod` splits the file
into lines before handling `require`, so the parenthesized block's inner
lines never reach the `require` branch and the dependency list stays
empty.  The theorem evaluates the extractor at the claim's input. -/
theorem parseGoMod_paren_require_block_empty :
    parseGoMod fsC1 "/r/go.mod".toList =
      some ⟨"/r/go.mod".toList, "example.com/app".toList, []⟩
    ∧ ([] : List Str) ≠ ["github.com/x".toList] := by
  constructor
  · decide
  · decide

/-- C2 (counterexample): two merge orders that are permutations of the
same candidate list (both reachable schedules of the same tree) give
different `Proto` collections, so the summary is not identical across
runs as claimed. -/
theorem scan_proto_order_dependent :
    ("b.proto".toList :: "a.proto".toList :: []).Perm
        ("a.proto".toList :: "b.proto".toList :: [])
    ∧ (runScan cfgC2 fsC2 cuke0 ["a.proto".toList, "b.proto".toList]).proto
      ≠ (runScan cfgC2 fsC2 cuke0 ["b.proto".toList, "a.proto".toList]).proto := by
  constructor
  · exact List.Perm.swap _ _ _
  · decide

/-- C2 (amended): of the nine categorical collections only GoModules,
MakeTargets, Dockerfiles, SQLMigrations, EnvExamples, Licenses and
Readmes are sorted in the finalize phase, and exactly those seven are
identical across any two worker schedules of the same candidate list;
Proto and Decisions keep merge order. -/
theorem scan_sorted_seven_deterministic
    (cfg : Config) (fs : Str → Option Str) (cuke : Str → Nat × Nat × Nat)
    (o₁ o₂ : List Str) (hperm : o₁.Perm o₂) (hnd : o₁.Nodup) :
    ((runScan cfg fs cuke o₁).goModules = (runScan cfg fs cuke o₂).goModules
      ∧ (runScan cfg fs cuke o₁).makeTargets = (runScan cfg fs cuke o₂).makeTargets
      ∧ (runScan cfg fs cuke o₁).dockerfiles = (runScan cfg fs cuke o₂).dockerfiles
      ∧ (runScan cfg fs cuke o₁).sqlMigrations = (runScan cfg fs cuke o₂).sqlMigrations
      ∧ (runScan cfg fs cuke o₁).envExamples = (runScan cfg fs cuke o₂).envExamples
      ∧ (runScan cfg fs cuke o₁).licenses = (runScan cfg fs cuke o₂).licenses
      ∧ (runScan cfg fs cuke o₁).readmes = (runScan cfg fs cuke o₂).readmes)
    ∧ (List.Sorted (fun a b : GoModule => a.path ≤ b.path) (runScan cfg fs cuke o₁).goModules
      ∧ List.Sorted (fun a b : Str => a ≤ b) (runScan cfg fs cuke o₁).makeTargets
      ∧ List.Sorted (fun a b : Str => a ≤ b) (runScan cfg fs cuke o₁).dockerfiles
      ∧ List.Sorted (fun a b : Str => a ≤ b) (runScan cfg fs cuke o₁).sqlMigrations
      ∧ List.Sorted (fun a b : Str => a ≤ b) (runScan cfg fs cuke o₁).envExamples
      ∧ List.Sorted (fun a b : Str => a ≤ b) (runScan cfg fs cuke o₁).licenses
      ∧ List.Sorted (fun a b : Str => a ≤ b) (runScan cfg fs cuke o₁).readmes) := by
  refine ⟨⟨?_, ?_, ?_, ?_, ?_, ?_, ?_⟩, ?_, ?_, ?_, ?_, ?_, ?_, ?_⟩
  · rw [runScan_goModules, runScan_goModules]
    exact sortGoModules_eq_of_perm (hperm.flatMap_right _)
      (nodup_flatMap_key GoModule.path (gmContrib cfg fs) cfg.root
        (gmContrib_length cfg fs) (gmContrib_path cfg fs) o₁ hnd)
  · rw [runScan_makeTargets, runScan_makeTargets]
    exact sortStrs_eq_of_perm (hperm.flatMap_right _)
  · rw [runScan_dockerfiles, runScan_dockerfiles]
    exact sortStrs_eq_of_perm (hperm.flatMap_right _)
  · rw [runScan_sqlMigrations, runScan_sqlMigrations]
    exact sortStrs_eq_of_perm (hperm.flatMap_right _)
  · rw [runScan_envExamples, runScan_envExamples]
    exact sortStrs_eq_of_perm (hperm.flatMap_right _)
  · rw [runScan_licenses, runScan_licenses]
    exact sortStrs_eq_of_perm (hperm.flatMap_right _)
  · rw [runScan_readmes, runScan_readmes]
    exact sortStrs_eq_of_perm (hperm.flatMap_right _)
  · rw [runScan_goModules]
    exact List.sorted_insertionSort _ _
  · rw [runScan_makeTargets]
    exact List.sorted_insertionSort _ _
  · rw [runScan_dockerfiles]
    exact List.sorted_insertionSort _ _
  · rw [runScan_sqlMigrations]
    exact List.sorted_insertionSort _ _
  · rw [runScan_envExamples]
    exact List.sorted_insertionSort _ _
  · rw [runScan_licenses]
    exact List.sorted_insertionSort _ _
  · rw [runScan_readmes]
    exact List.sorted_insertionSort _ _

/-- C2 (witness): the amended determinism applied to a concrete pair of
schedules. -/
theorem scan_sorted_seven_deterministic_witness :
    (runScan cfgC2 fs0 cuke0 ["b".toList, "a".toList]).dockerfiles
      = (runScan cfgC2 fs0 cuke0 ["a".toList, "b".toList]).dockerfiles :=
  (scan_sorted_seven_deterministic cfgC2 fs0 cuke0 _ _
    (List.Perm.swap _ _ _) (by decide)).1.2.2.1

/-- C3 (counterexample): the worker passes the root-joined path to the
extractors, so `GoModule.Path` stores `/r/m/go.mod`, not the
relative-to-root `m/go.mod` the claim demands. -/
theorem goModule_path_joined_not_relative :
    ((runScan cfgC3 fsC3 cuke0 ["m/go.mod".toList]).goModules.map
        (fun gm => gm.path)) = ["/r/m/go.mod".toList]
    ∧ ("/r/m/go.mod".toList : Str) ≠ "m/go.mod".toList := by
  constructor
  · decide
  · decide

/-- C3 (amended): the plain path lists (Dockerfiles, SQLMigrations,
EnvExamples, Licenses, Readmes) and the readme-summary keys store the
candidate relative slash-paths unchanged from discovery, while the
extractor records (GoModule.Path, ProtoInfo.File, Decision.File,
ReadmeSummary.File) store the root-joined full path of such a
candidate. -/
theorem stored_path_shapes (cfg : Config) (fs : Str → Option Str)
    (cuke : Str → Nat × Nat × Nat) (order : List Str) :
    (∀ p ∈ (runScan cfg fs cuke order).dockerfiles, p ∈ order)
    ∧ (∀ p ∈ (runScan cfg fs cuke order).sqlMigrations, p ∈ order)
    ∧ (∀ p ∈ (runScan cfg fs cuke order).envExamples, p ∈ order)
    ∧ (∀ p ∈ (runScan cfg fs cuke order).licenses, p ∈ order)
    ∧ (∀ p ∈ (runScan cfg fs cuke order).readmes, p ∈ order)
    ∧ (∀ gm ∈ (runScan cfg fs cuke order).goModules,
        ∃ p ∈ order, gm.path = joinPath cfg.root p)
    ∧ (∀ pi ∈ (runScan cfg fs cuke order).proto,
        ∃ p ∈ order, pi.file = joinPath cfg.root p)
    ∧ (∀ d ∈ (runScan cfg fs cuke order).decisions,
        ∃ p ∈ order, d.file = joinPath cfg.root p)
    ∧ (∀ kv ∈ (runScan cfg fs cuke order).readmeSummaries,
        kv.1 ∈ order ∧ kv.2.file = joinPath cfg.root kv.1) := by
  refine ⟨?_, ?_, ?_, ?_, ?_, ?_, ?_, ?_, ?_⟩
  · intro p hp
    rw [runScan_dockerfiles] at hp
    rcases List.mem_flatMap.1 (mem_sortStrs hp) with ⟨q, hq, hmem⟩
    exact (dockerContrib_mem q p hmem) ▸ hq
  · intro p hp
    rw [runScan_sqlMigrations] at hp
    rcases List.mem_flatMap.1 (mem_sortStrs hp) with ⟨q, hq, hmem⟩
    exact (sqlContrib_mem q p hmem) ▸ hq
  · intro p hp
    rw [runScan_envExamples] at hp
    rcases List.mem_flatMap.1 (mem_sortStrs hp) with ⟨q, hq, hmem⟩
    exact (envContrib_mem q p hmem) ▸ hq
  · intro p hp
    rw [runScan_licenses] at hp
    rcases List.mem_flatMap.1 (mem_sortStrs hp) with ⟨q, hq, hmem⟩
    exact (licContrib_mem q p hmem) ▸ hq
  · intro p hp
    rw [runScan_readmes] at hp
    rcases List.mem_flatMap.1 (mem_sortStrs hp) with ⟨q, hq, hmem⟩
    exact (readmeContrib_mem q p hmem) ▸ hq
  · intro gm hgm
    rw [runScan_goModules] at hgm
    rcases List.mem_flatMap.1 (mem_sortGoModules hgm) with ⟨q, hq, hmem⟩
    exact ⟨q, hq, gmContrib_path cfg fs q gm hmem⟩
  · intro pi hpi
    rw [runScan_proto] at hpi
    rcases List.mem_flatMap.1 hpi with ⟨q, hq, hmem⟩
    exact ⟨q, hq, protoContrib_file cfg fs q pi hmem⟩
  · intro d hd
    rw [runScan_decisions] at hd
    rcases List.mem_flatMap.1 hd with ⟨q, hq, hmem⟩
    exact ⟨q, hq, decContrib_file cfg fs q d hmem⟩
  · intro kv hkv
    rw [runScan_readmeSummaries] at hkv
    rcases foldl_readmeSummaries_mem cfg fs order (emptySummary cfg.root) kv hkv
      with h | h
    · simp [emptySummary] at h
    · exact h

/-- C3 (witness): the go.mod record of a concrete scan stores the
root-joined path of a discovered candidate. -/
theorem stored_path_shapes_witness :
    ∃ p ∈ (["m/go.mod".toList] : List Str),
      ((runScan cfgC3 fsC3 cuke0 ["m/go.mod".toList]).goModules.headD
          ⟨[], [], []⟩).path = joinPath cfgC3.root p :=
  (stored_path_shapes cfgC3 fsC3 cuke0 ["m/go.mod".toList]).2.2.2.2.2.1 _ (by decide)

/-- C4: the worker bumps the extension histogram exactly once for every
candidate path, whatever the classification outcome, so the histogram's
summed counts equal the candidate-list length. -/
theorem techStats_total_counts_candidates (cfg : Config) (fs : Str → Option Str)
    (cuke : Str → Nat × Nat × Nat) (order : List Str) :
    techSum (runScan cfg fs cuke order).techStats = order.length :=
  runScan_techSum cfg fs cuke order

/-- C5: on the spec's two-profile example the aggregation yields 8 total
statements, 3 covered, and a percentage of exactly 37.5 (the float
computation `3*100/8` is exact). -/
theorem coverage_aggregation_example :
    (runScan cfgC5 fsC5 cuke0
        ["c1/coverage.out".toList, "c2/coverage.txt".toList]).testCoverage.map
      (fun tc => (tc.totalStmts, tc.coveredStmts)) = some (8, 3)
    ∧ (runScan cfgC5 fsC5 cuke0
        ["c1/coverage.out".toList, "c2/coverage.txt".toList]).testCoverage.map
      (fun tc => tc.percent) = some (((3 : ℕ) : ℚ) * 100 / ((8 : ℕ) : ℚ))
    ∧ (((3 : ℕ) : ℚ) * 100 / ((8 : ℕ) : ℚ)) = 75 / 2 := by
  refine ⟨by decide, rfl, by norm_num⟩

/-- C6: the claim (and the field's own comment) says `HasGoProfile` is
true whenever a coverage-profile file was found, but the code sets it
only inside `if total > 0`, so a found-but-empty profile leaves the flag
false.  The theorem evaluates the scan at such an input: one profile
source is recorded, yet the flag stays false. -/
theorem hasGoProfile_false_despite_profile_found :
    (runScan cfgC6 fsC6 cuke0 ["coverage.out".toList]).testCoverage.map
      (fun tc => (tc.sources, tc.hasGoProfile, tc.totalStmts))
      = some (["coverage.out".toList], false, 0) := by
  decide

/-- C7 (counterexample): on a record whose first plain line precedes the
heading, the extractor takes that earlier line as the summary, not the
first plain line after the title as claimed. -/
theorem parseDecision_summary_precedes_title :
    parseDecision fsC7 "/r/docs/decisions/d.md".toList 65536 =
      some ⟨"/r/docs/decisions/d.md".toList, "Title".toList, "intro line".toList⟩
    ∧ "intro line".toList ≠ "body after".toList := by
  constructor
  · decide
  · decide

/-- C7 (amended): the title is the first trimmed line starting with
`"# "` (marker stripped) and the summary is the first non-empty trimmed
line not starting with `#` anywhere in the head text — it may precede
the title; scanning stops once both are fixed but that cannot change
either first match. -/
theorem parseDecision_first_heading_first_plain
    (fs : Str → Option Str) (path : Str) (maxBytes : Int) (head : Str)
    (h : ReadHead (fs path) maxBytes = .ok head) :
    parseDecision fs path maxBytes =
      some ⟨path, firstHeadingTitle (splitOnCharGo '\n' head),
            firstPlainLine (splitOnCharGo '\n' head)⟩ := by
  unfold parseDecision
  rw [h]
  simp [parseDecisionLoop_spec]

/-- C7 (witness): the amended description applied to the concrete
decision record. -/
theorem parseDecision_first_heading_first_plain_witness :
    parseDecision fsC7 "/r/docs/decisions/d.md".toList 65536 =
      some ⟨"/r/docs/decisions/d.md".toList,
        firstHeadingTitle (splitOnCharGo '\n' "intro line\n# Title\nbody after".toList),
        firstPlainLine (splitOnCharGo '\n' "intro line\n# Title\nbody after".toList)⟩ :=
  parseDecision_first_heading_first_plain fsC7 "/r/docs/decisions/d.md".toList 65536
    "intro line\n# Title\nbody after".toList rfl

/-- C8 (counterexample): the polished `files` variant's `MatchAny` tests
only the full path: `.DS_Store` matches the base name of
`sub/.DS_Store` but `MatchAny` returns false (the superseded variant
returns true). -/
theorem matchAny_ignores_basename :
    MatchAny [".DS_Store".toList] "sub/.DS_Store".toList = false
    ∧ filepathMatch ".DS_Store".toList (filepathBase "sub/.DS_Store".toList) = true
    ∧ MatchAnyBase [".DS_Store".toList] "sub/.DS_Store".toList = true := by
  refine ⟨by decide, by decide, by decide⟩

/-- C8 (amended): the polished variant's `MatchAny` returns true exactly
when some glob matches the full relative path; only the superseded
variant's `MatchAny` also tests the path's base name. -/
theorem matchAny_characterizations (globs : List Str) (path : Str) :
    (MatchAny globs path = true ↔ ∃ g ∈ globs, filepathMatch g path = true)
    ∧ (MatchAnyBase globs path = true ↔
        ∃ g ∈ globs,
          (filepathMatch g path = true ∨ filepathMatch g (filepathBase path) = true)) := by
  constructor <;> simp [MatchAny, MatchAnyBase, List.any_eq_true]

/-- C9: gitignore-file rules are checked first in the walk: a matched
file never reaches the candidate list whatever the include globs, a
matched directory drops its whole subtree, and the include-glob override
only acts at the later exclude-glob check (a non-ignored file matched by
an include glob is kept). -/
theorem gitignore_rules_override_include_globs
    (gi : Str → Bool) (excludeGlobs includeGlobs : List Str) (parent : Str) :
    (∀ (es : List FSEntry) (p : Str),
        p ∈ walkList gi excludeGlobs includeGlobs parent es → gi p = false)
    ∧ (∀ (n : Str) (cs rest : List FSEntry),
        gi (relJoin parent n) = true →
          walkList gi excludeGlobs includeGlobs parent (.dir n cs :: rest)
            = walkList gi excludeGlobs includeGlobs parent rest
          ∧ walkList gi excludeGlobs includeGlobs parent (.file n :: rest)
            = walkList gi excludeGlobs includeGlobs parent rest)
    ∧ (∀ (n : Str) (rest : List FSEntry),
        gi (relJoin parent n) = false →
          MatchAny includeGlobs (relJoin parent n) = true →
            relJoin parent n ∈
              walkList gi excludeGlobs includeGlobs parent (.file n :: rest)) := by
  refine ⟨fun es => walk_no_gitignored gi excludeGlobs includeGlobs parent es,
    fun n cs rest h => ⟨by simp [walkList, h], by simp [walkList, h]⟩,
    fun n rest h1 h2 => ?_⟩
  simp [walkList, h1, h2]

/-- C9 (witness): a concrete ignored directory is pruned even though an
include glob covers its contents. -/
theorem gitignore_rules_override_include_globs_witness :
    walkList giW excW incW []
        [FSEntry.dir "node_modules".toList [FSEntry.file "x.js".toList],
         FSEntry.file "a.txt".toList]
      = walkList giW excW incW [] [FSEntry.file "a.txt".toList] :=
  ((gitignore_rules_override_include_globs giW excW incW []).2.1
    "node_modules".toList [FSEntry.file "x.js".toList] [FSEntry.file "a.txt".toList]
    (by decide)).1

/-- C10: with a non-positive byte cap, both `ReadHead` variants return
the empty string with no error for every file that opens successfully
(the polished variant via its explicit guard, the older one via the loop
guard `n >= max`). -/
theorem readHead_nonpositive_max_returns_empty (data : Str) (m : Int) (hm : m ≤ 0) :
    ReadHead (some data) m = .ok [] ∧ ReadHead2 (some data) m = .ok [] := by
  constructor
  · simp [ReadHead, hm]
  · have h0 : m.toNat = 0 := Int.toNat_of_nonpos hm
    simp [ReadHead2, h0, readHeadLoop2, hm]

/-- C10 (witness): the zero cap on a concrete readable file. -/
theorem readHead_nonpositive_max_returns_empty_witness :
    ReadHead (some "hello".toList) 0 = .ok []
    ∧ ReadHead2 (some "hello".toList) 0 = .ok [] :=
  readHead_nonpositive_max_returns_empty "hello".toList 0 (by decide)

end LlmScan
